import Mathlib

/-!
# Verification of the ATP half-latency knee computation

Shallow embedding of `src/atp/computation.py`. Real numbers are modelled by
`ℚ`; a possibly-missing (NaN) float is modelled by `Option ℚ` with `none`
standing for NaN. Runtime exceptions are modelled by `Except ATPError`.
-/

instance {ε α : Type} [DecidableEq ε] [DecidableEq α] :
    DecidableEq (Except ε α) := fun a b =>
  match a, b with
  | .ok x, .ok y =>
    if h : x = y then isTrue (by rw [h]) else isFalse (by simp [h])
  | .error x, .error y =>
    if h : x = y then isTrue (by rw [h]) else isFalse (by simp [h])
  | .ok _, .error _ => isFalse (by simp)
  | .error _, .ok _ => isFalse (by simp)

namespace ATP

instance : Std.Antisymm ((· : ℚ) ≤ ·) :=
  ⟨fun h1 h2 => le_antisymm h1 h2⟩


/-- Error taxonomy of the computation core (spec §7): `shape` for mismatched
lengths / dimensionality, `insufficientData` for fewer than two valid pairs,
`unknownRule` for an unrecognized half-latency rule selector. `internal`
models any other runtime failure (e.g. out-of-range indexing or a zero-size
reduction), which the code never hits on validated inputs. -/
inductive ATPError where
  | shape
  | insufficientData
  | unknownRule
  | internal
deriving DecidableEq, Repr

/-- The result record returned by `find_knee_half_latency`
(`KneeResult` dataclass in `computation.py`). Indices are natural numbers;
`none` models Python `None`. -/
structure KneeResult where
  atp_iops : ℚ
  knee_latency : ℚ
  half_latency : ℚ
  knee_index_left : Option ℕ
  knee_index_right : Option ℕ
deriving DecidableEq, Repr

/-- Boolean mask selection `arr[mask]` as used in `_validate_xy`:
keep the entries of `l` at positions where `mask` is `true`. Positions kept
by the NaN mask are guaranteed non-`none`, so the `Option` value is unwrapped
by the `filterMap`. -/
def applyMask (l : List (Option ℚ)) (mask : List Bool) : List ℚ :=
  (l.zip mask).filterMap (fun p => if p.2 then p.1 else none)

/-- Model of `_validate_xy` from `computation.py`: checks equal lengths (the 1-D check
is vacuous in a list embedding), requires at least two raw points, removes
positions where either value is NaN via the mask
`~(isnan(iops) | isnan(latency))`, and requires at least two valid points.
The `argsort` the source computes is dead code: the sorted return is
commented out, so the order is returned as given. -/
def validate_xy (iops latency : List (Option ℚ)) :
    Except ATPError (List ℚ × List ℚ) :=
  if iops.length ≠ latency.length then .error .shape
  else if iops.length < 2 then .error .insufficientData
  else
    let mask := (iops.zip latency).map (fun p => !(p.1.isNone || p.2.isNone))
    let x := applyMask iops mask
    let y := applyMask latency mask
    if x.length < 2 then .error .insufficientData
    else .ok (x, y)

/-- Model of `np.nanmin`: minimum over the non-NaN entries; `none` when there are no
valid entries (numpy returns NaN there, modelled as a missing value). -/
def nanmin (l : List (Option ℚ)) : Option ℚ := (l.filterMap id).min?

/-- Model of `np.nanmax`: maximum over the non-NaN entries. -/
def nanmax (l : List (Option ℚ)) : Option ℚ := (l.filterMap id).max?

/-- Model of `compute_half_latency` from `computation.py`. On a zero-size input
`np.nanmin` raises (modelled `.error .internal`); on an all-NaN input it
returns NaN (modelled `.ok none`). Otherwise `midrange` gives
`(min+max)/2`, `double_min` gives `2*min`, and any other rule string raises
`Unknown half-latency rule` (modelled `.error .unknownRule`). -/
def compute_half_latency (latency : List (Option ℚ)) (rule : String) :
    Except ATPError (Option ℚ) :=
  if latency.length = 0 then .error .internal
  else
    let mn := nanmin latency
    let mx := nanmax latency
    if rule = "midrange" then
      .ok (match mn, mx with
           | some a, some b => some ((a + b) / 2)
           | _, _ => none)
    else if rule = "double_min" then
      .ok (mn.map (fun a => 2 * a))
    else .error .unknownRule

/-- Edge padding `np.pad(y, pad, mode="edge")`: `pad` copies of the first
value in front and `pad` copies of the last value behind. -/
def padEdge (y : List ℚ) (pad : ℕ) : List ℚ :=
  List.replicate pad (y.headD 0) ++ y ++ List.replicate pad (y.getLastD 0)

/-- Model of `np.convolve(a, k, mode="valid")`: position `i` of the output is
`Σ_j a[i+j] * k[len(k)-1-j]` (the kernel is reversed, as in a convolution),
for `i` ranging over the full-overlap positions. -/
def convValid (a k : List ℚ) : List ℚ :=
  (List.range (a.length + 1 - k.length)).map
    (fun i => ((List.range k.length).map
      (fun j => a.getD (i + j) 0 * k.getD (k.length - 1 - j) 0)).sum)

/-- Model of `moving_average` from `computation.py`: passthrough for a null or `≤ 1`
window; otherwise the window is clamped to the sequence length, the input is
edge-padded by `window // 2`, convolved with a uniform kernel in valid mode,
and any excess length is trimmed by the slice
`y_smooth[start : start + y.size]` with `start = (excess) // 2`. -/
def moving_average (y : List ℚ) (window : Option ℤ) : List ℚ :=
  match window with
  | none => y
  | some w =>
    if w ≤ 1 then y
    else
      let wn : ℕ := if y.length < w.toNat then y.length else w.toNat
      let pad := wn / 2
      let y_pad := padEdge y pad
      let kernel := List.replicate wn ((wn : ℚ))⁻¹
      let y_smooth := convValid y_pad kernel
      if y.length < y_smooth.length then
        let start := (y_smooth.length - y.length) / 2
        (y_smooth.drop start).take y.length
      else y_smooth

/-- The index `idx = np.argmax(latency >= L_half)` of `_interpolate_knee`:
the first index whose latency reaches the threshold (0 when no entry does,
exactly as `argmax` on an all-false boolean array; that case is diverted by
the `any` check before `idx` is used). `List.findIdx` returns the length on
an all-false list, but that value is likewise never used. -/
def firstCrossIdx (latency : List ℚ) (L_half : ℚ) : ℕ :=
  latency.findIdx (fun v => decide (L_half ≤ v))

/-- Model of `_interpolate_knee` from `computation.py`: if the threshold is never
reached the last point is returned with indices `(size-2, size-1)`; if the
threshold is met exactly or at index 0 that sample is returned; otherwise
the knee is linearly interpolated between samples `idx-1` and `idx`, with a
fallback to the right-hand sample when the segment is flat (guarding the
division). Out-of-range indexing (possible only on unvalidated inputs)
yields `none`. -/
def interpolate_knee (iops latency : List ℚ) (L_half : ℚ) :
    Option (ℚ × ℚ × Option ℕ × Option ℕ) :=
  if ¬ latency.any (fun v => decide (L_half ≤ v)) then
    match iops.getLast?, latency.getLast? with
    | some xl, some yl =>
      some (xl, yl,
        (if 2 ≤ iops.length then some (iops.length - 2) else none),
        some (iops.length - 1))
    | _, _ => none
  else
    let idx := firstCrossIdx latency L_half
    match iops[idx]?, latency[idx]? with
    | some xi, some yi =>
      if yi = L_half ∨ idx = 0 then
        some (xi, yi, (if idx = 0 then none else some (idx - 1)), some idx)
      else
        match iops[idx - 1]?, latency[idx - 1]? with
        | some x0, some y0 =>
          if yi = y0 then
            some (xi, yi, some (idx - 1), some idx)
          else
            let t := (L_half - y0) / (yi - y0)
            some (x0 + t * (xi - x0), L_half, some (idx - 1), some idx)
        | _, _ => none
    | _, _ => none

/-- The line `y_use = moving_average(y, smooth_window) if smooth_window and
smooth_window > 1 else y` of `find_knee_half_latency`: Python truthiness
makes `None` and `0` skip the smoothing, and the `> 1` comparison skips all
the remaining windows `≤ 1`. -/
def smoothed (y : List ℚ) (smooth_window : Option ℤ) : List ℚ :=
  match smooth_window with
  | some w => if 1 < w then moving_average y (some w) else y
  | none => y

/-- Model of `find_knee_half_latency` from `computation.py`: validate, optionally
smooth the latency (only when `smooth_window` is truthy and `> 1`), compute
the half-latency threshold on the (possibly smoothed) latency, and locate
the knee. The two `.internal` branches model runtime failures that cannot
occur after validation. -/
def find_knee_half_latency (iops latency : List (Option ℚ)) (rule : String)
    (smooth_window : Option ℤ) : Except ATPError KneeResult :=
  match validate_xy iops latency with
  | .error e => .error e
  | .ok (x, y) =>
    let y_use := smoothed y smooth_window
    match compute_half_latency (y_use.map some) rule with
    | .error e => .error e
    | .ok none => .error .internal
    | .ok (some L_half) =>
      match interpolate_knee x y_use L_half with
      | some (atp, kl, il, ir) =>
        .ok ⟨atp, kl, L_half, il, ir⟩
      | none => .error .internal

/-- The valid (non-NaN) pairs of two sequences, in input order: the
specification-side description of what the normalizer keeps. -/
def validPairs (iops latency : List (Option ℚ)) : List (ℚ × ℚ) :=
  (iops.zip latency).filterMap
    (fun p => match p with
      | (some a, some b) => some (a, b)
      | _ => none)

/-! ### Lemmas about the input normalizer -/

lemma applyMask_fst (i l : List (Option ℚ)) :
    applyMask i ((i.zip l).map (fun p => !(p.1.isNone || p.2.isNone)))
      = (validPairs i l).map Prod.fst := by
  induction i generalizing l with
  | nil => simp [applyMask, validPairs]
  | cons a i ih =>
    cases l with
    | nil => simp [applyMask, validPairs]
    | cons b l =>
      cases a <;> cases b <;>
        simpa [applyMask, validPairs, List.filterMap_cons] using ih l

lemma applyMask_snd (i l : List (Option ℚ)) :
    applyMask l ((i.zip l).map (fun p => !(p.1.isNone || p.2.isNone)))
      = (validPairs i l).map Prod.snd := by
  induction i generalizing l with
  | nil => simp [applyMask, validPairs]
  | cons a i ih =>
    cases l with
    | nil => simp [applyMask, validPairs]
    | cons b l =>
      cases a <;> cases b <;>
        simpa [applyMask, validPairs, List.filterMap_cons] using ih l

lemma validPairs_length_le (i l : List (Option ℚ)) :
    (validPairs i l).length ≤ i.length := by
  calc (validPairs i l).length ≤ (i.zip l).length :=
        List.length_filterMap_le _ _
    _ ≤ i.length := by rw [List.length_zip]; exact min_le_left _ _

/-- Characterization of a successful validation: with equal lengths and at
least two valid pairs, the normalizer returns exactly the valid pairs,
unzipped, in input order. -/
lemma validate_xy_ok (i l : List (Option ℚ)) (hlen : i.length = l.length)
    (h2 : 2 ≤ (validPairs i l).length) :
    validate_xy i l
      = .ok ((validPairs i l).map Prod.fst, (validPairs i l).map Prod.snd) := by
  have hraw : ¬ i.length < 2 := by
    have := validPairs_length_le i l
    omega
  unfold validate_xy
  rw [if_neg (by omega), if_neg (by simpa using hraw)]
  simp only [applyMask_fst, applyMask_snd]
  rw [if_neg (by simpa using h2)]

/-- Claim C2: for equal-length inputs with at least two non-missing pairs,
the input normalizer removes exactly the positions where either value is
NaN and keeps the remaining pairs in their original input order (no
reordering by throughput value). -/
theorem validate_xy_preserves_order (i l : List (Option ℚ))
    (hlen : i.length = l.length) (h2 : 2 ≤ (validPairs i l).length) :
    validate_xy i l
      = .ok ((validPairs i l).map Prod.fst, (validPairs i l).map Prod.snd) :=
  validate_xy_ok i l hlen h2

/-- Witness for C2 at the reference input `[300, NaN, 100, 200]` /
`[6, 7, 1, 3]`: the normalizer keeps `(300,6),(100,1),(200,3)` in input
order, i.e. it does not sort by throughput. -/
theorem validate_xy_preserves_order_witness :
    validate_xy [some 300, none, some 100, some 200]
      [some 6, some 7, some 1, some 3] = .ok ([300, 100, 200], [6, 1, 3]) := by
  have h := validate_xy_preserves_order
    [some 300, none, some 100, some 200] [some 6, some 7, some 1, some 3]
    (by decide) (by decide)
  simpa [validPairs] using h

/-! ### Lemmas about the knee locator -/

lemma any_cross_of_idx_lt {y : List ℚ} {L : ℚ}
    (hidx : firstCrossIdx y L < y.length) :
    y.any (fun v => decide (L ≤ v)) = true := by
  rw [List.any_eq_true]
  exact List.findIdx_lt_length.mp hidx

lemma cross_at_firstCrossIdx {y : List ℚ} {L : ℚ}
    (hidx : firstCrossIdx y L < y.length) :
    L ≤ y.get ⟨firstCrossIdx y L, hidx⟩ := by
  have h := @List.findIdx_getElem ℚ (fun v => decide (L ≤ v)) y hidx
  simpa using h

lemma no_cross_before_firstCrossIdx {y : List ℚ} {L : ℚ} {j : ℕ}
    (hj : j < firstCrossIdx y L) :
    y.get ⟨j, lt_of_lt_of_le hj (List.findIdx_le_length _)⟩ < L := by
  have h := List.not_of_lt_findIdx hj
  simpa using h

/-- The no-crossing branch of `_interpolate_knee`: when the threshold
strictly exceeds every latency, the last pair is reported with indices
`(size-2, size-1)`. -/
lemma interpolate_knee_no_cross (x y : List ℚ) (L : ℚ)
    (h2 : 2 ≤ x.length) (hy : y ≠ [])
    (hall : ∀ v ∈ y, v < L) :
    interpolate_knee x y L
      = some (x.getLastD 0, y.getLastD 0,
          some (x.length - 2), some (x.length - 1)) := by
  have hx : x ≠ [] := by
    intro h
    rw [h] at h2
    simp at h2
  have hxl : x.getLast? = some (x.getLast hx) := List.getLast?_eq_getLast x hx
  have hyl : y.getLast? = some (y.getLast hy) := List.getLast?_eq_getLast y hy
  have hany : y.any (fun v => decide (L ≤ v)) = false := by
    simp only [List.any_eq_false]
    intro v hv
    simpa using not_le.mpr (hall v hv)
  unfold interpolate_knee
  rw [if_pos (by simp [hany])]
  rw [hxl, hyl]
  simp [List.getLastD_eq_getLast?, hxl, hyl, h2]

/-- The exact-match / index-0 branch of `_interpolate_knee`: the sample at
the first crossing index is reported verbatim (its own latency, not the
threshold). -/
lemma interpolate_knee_exact_eq (x y : List ℚ) (L : ℚ)
    (hlen : x.length = y.length)
    (hidx : firstCrossIdx y L < y.length)
    (hex : y.get ⟨firstCrossIdx y L, hidx⟩ = L ∨ firstCrossIdx y L = 0) :
    interpolate_knee x y L
      = some (x.get ⟨firstCrossIdx y L, by omega⟩, y.get ⟨firstCrossIdx y L, hidx⟩,
          (if firstCrossIdx y L = 0 then none else some (firstCrossIdx y L - 1)),
          some (firstCrossIdx y L)) := by
  have hxe : x[firstCrossIdx y L]? = some (x.get ⟨firstCrossIdx y L, by omega⟩) :=
    List.getElem?_eq_getElem (by omega)
  have hye : y[firstCrossIdx y L]? = some (y.get ⟨firstCrossIdx y L, hidx⟩) :=
    List.getElem?_eq_getElem hidx
  unfold interpolate_knee
  rw [if_neg (by simp [any_cross_of_idx_lt hidx])]
  simp only [hxe, hye]
  rw [if_pos hex]

/-- The interpolation branch of `_interpolate_knee`: first crossing at a
positive index with strict threshold overshoot yields the linear
interpolation between samples `idx-1` and `idx`. -/
lemma interpolate_knee_interp_eq (x y : List ℚ) (L : ℚ)
    (hlen : x.length = y.length)
    (hidx : firstCrossIdx y L < y.length)
    (hpos : 0 < firstCrossIdx y L)
    (hstrict : L < y.get ⟨firstCrossIdx y L, hidx⟩) :
    interpolate_knee x y L
      = some (x.get ⟨firstCrossIdx y L - 1, by omega⟩
            + (L - y.get ⟨firstCrossIdx y L - 1, by omega⟩)
              / (y.get ⟨firstCrossIdx y L, hidx⟩ - y.get ⟨firstCrossIdx y L - 1, by omega⟩)
            * (x.get ⟨firstCrossIdx y L, by omega⟩ - x.get ⟨firstCrossIdx y L - 1, by omega⟩),
          L, some (firstCrossIdx y L - 1), some (firstCrossIdx y L)) := by
  have h0 : y.get ⟨firstCrossIdx y L - 1, by omega⟩ < L :=
    no_cross_before_firstCrossIdx (by omega)
  have hneL : y.get ⟨firstCrossIdx y L, hidx⟩ ≠ L := ne_of_gt hstrict
  have hne0 : y.get ⟨firstCrossIdx y L, hidx⟩ ≠ y.get ⟨firstCrossIdx y L - 1, by omega⟩ :=
    ne_of_gt (lt_trans h0 hstrict)
  have hxe : x[firstCrossIdx y L]? = some (x.get ⟨firstCrossIdx y L, by omega⟩) :=
    List.getElem?_eq_getElem (by omega)
  have hye : y[firstCrossIdx y L]? = some (y.get ⟨firstCrossIdx y L, hidx⟩) :=
    List.getElem?_eq_getElem hidx
  have hxe0 : x[firstCrossIdx y L - 1]?
      = some (x.get ⟨firstCrossIdx y L - 1, by omega⟩) :=
    List.getElem?_eq_getElem (by omega)
  have hye0 : y[firstCrossIdx y L - 1]?
      = some (y.get ⟨firstCrossIdx y L - 1, by omega⟩) :=
    List.getElem?_eq_getElem (by omega)
  unfold interpolate_knee
  rw [if_neg (by simp [any_cross_of_idx_lt hidx])]
  simp only [hxe, hye, hxe0, hye0]
  rw [if_neg (by push_neg; exact ⟨hneL, by omega⟩), if_neg hne0]

/-- Counterexample to claim C3 as stated: on latency `[6, 1, 3]` with
threshold `3.5` the first crossing index is `0` (so the claim's hypothesis
holds via `idx == 0`), yet the returned knee latency is `latency[0] = 6`,
not the threshold `3.5` the claim requires. -/
theorem knee_exact_idx0_counterexample :
    firstCrossIdx [6, 1, 3] (7/2) = 0 ∧
    interpolate_knee [300, 100, 200] [6, 1, 3] (7/2)
      = some (300, 6, none, some 0) ∧
    (6 : ℚ) ≠ 7/2 := by
  refine ⟨?_, ?_, by norm_num⟩
  · simp [firstCrossIdx, List.findIdx_cons]
    norm_num
  · simp [interpolate_knee, firstCrossIdx, List.findIdx_cons]
    norm_num

/-- Claim C3, amended: when the first index `idx` with
`latency[idx] >= threshold` satisfies `latency[idx] == threshold` exactly or
`idx == 0`, the knee locator returns throughput `throughput[idx]`, knee
latency `latency[idx]` (which equals the threshold in the exact-match case
but not necessarily when `idx == 0` with a strict overshoot), right index
`idx`, and left index `idx - 1` if `idx > 0` else null. -/
theorem knee_exact_branch (x y : List ℚ) (L : ℚ)
    (hlen : x.length = y.length)
    (hidx : firstCrossIdx y L < y.length)
    (hex : y.get ⟨firstCrossIdx y L, hidx⟩ = L ∨ firstCrossIdx y L = 0) :
    interpolate_knee x y L
      = some (x.get ⟨firstCrossIdx y L, by omega⟩, y.get ⟨firstCrossIdx y L, hidx⟩,
          (if firstCrossIdx y L = 0 then none else some (firstCrossIdx y L - 1)),
          some (firstCrossIdx y L)) :=
  interpolate_knee_exact_eq x y L hlen hidx hex

/-- Witness for C3 at the repository's exact-match test: throughput
`[10,20,30]`, latency `[5,10,15]`, threshold `10`: the knee is the second
sample, left index `0`, right index `1`. -/
theorem knee_exact_branch_witness :
    interpolate_knee [10, 20, 30] [5, 10, 15] 10
      = some (20, 10, some 0, some 1) := by
  have h := knee_exact_branch [10, 20, 30] [5, 10, 15] 10 (by decide)
    (by decide) (Or.inl (by decide))
  simpa using h

/-- Claim C4: with a first crossing at a positive index and a strict
overshoot, the knee locator linearly interpolates between samples `idx-1`
and `idx` with `t = (threshold - latency[idx-1]) / (latency[idx] -
latency[idx-1])`, reports knee latency equal to the threshold and indices
`(idx-1, idx)`, and when the bracketing throughputs differ the interpolated
throughput lies strictly between them. -/
theorem knee_interpolation_formula (x y : List ℚ) (L : ℚ)
    (hlen : x.length = y.length)
    (hidx : firstCrossIdx y L < y.length)
    (hpos : 0 < firstCrossIdx y L)
    (hstrict : L < y.get ⟨firstCrossIdx y L, hidx⟩)
    (_hflat : y.get ⟨firstCrossIdx y L - 1, by omega⟩ ≠ y.get ⟨firstCrossIdx y L, hidx⟩) :
    interpolate_knee x y L
      = some (x.get ⟨firstCrossIdx y L - 1, by omega⟩
            + (L - y.get ⟨firstCrossIdx y L - 1, by omega⟩)
              / (y.get ⟨firstCrossIdx y L, hidx⟩ - y.get ⟨firstCrossIdx y L - 1, by omega⟩)
            * (x.get ⟨firstCrossIdx y L, by omega⟩ - x.get ⟨firstCrossIdx y L - 1, by omega⟩),
          L, some (firstCrossIdx y L - 1), some (firstCrossIdx y L)) ∧
    (x.get ⟨firstCrossIdx y L - 1, by omega⟩ ≠ x.get ⟨firstCrossIdx y L, by omega⟩ →
      min (x.get ⟨firstCrossIdx y L - 1, by omega⟩) (x.get ⟨firstCrossIdx y L, by omega⟩)
        < x.get ⟨firstCrossIdx y L - 1, by omega⟩
            + (L - y.get ⟨firstCrossIdx y L - 1, by omega⟩)
              / (y.get ⟨firstCrossIdx y L, hidx⟩ - y.get ⟨firstCrossIdx y L - 1, by omega⟩)
            * (x.get ⟨firstCrossIdx y L, by omega⟩ - x.get ⟨firstCrossIdx y L - 1, by omega⟩) ∧
      x.get ⟨firstCrossIdx y L - 1, by omega⟩
          + (L - y.get ⟨firstCrossIdx y L - 1, by omega⟩)
            / (y.get ⟨firstCrossIdx y L, hidx⟩ - y.get ⟨firstCrossIdx y L - 1, by omega⟩)
          * (x.get ⟨firstCrossIdx y L, by omega⟩ - x.get ⟨firstCrossIdx y L - 1, by omega⟩)
        < max (x.get ⟨firstCrossIdx y L - 1, by omega⟩) (x.get ⟨firstCrossIdx y L, by omega⟩)) := by
  constructor
  · exact interpolate_knee_interp_eq x y L hlen hidx hpos hstrict
  · intro hxne
    set x0 := x.get ⟨firstCrossIdx y L - 1, by omega⟩ with hx0
    set x1 := x.get ⟨firstCrossIdx y L, by omega⟩ with hx1
    set y0 := y.get ⟨firstCrossIdx y L - 1, by omega⟩ with hy0
    set y1 := y.get ⟨firstCrossIdx y L, hidx⟩ with hy1
    have h0 : y0 < L := no_cross_before_firstCrossIdx (by omega)
    have hden : (0:ℚ) < y1 - y0 := by linarith
    have ht0 : 0 < (L - y0) / (y1 - y0) := div_pos (by linarith) hden
    have ht1 : (L - y0) / (y1 - y0) < 1 := (div_lt_one hden).mpr (by linarith)
    rcases lt_or_gt_of_ne hxne with hlt | hgt
    · rw [min_eq_left (le_of_lt hlt), max_eq_right (le_of_lt hlt)]
      constructor
      · nlinarith [mul_pos ht0 (sub_pos.mpr hlt)]
      · nlinarith [mul_pos (sub_pos.mpr ht1) (sub_pos.mpr hlt)]
    · rw [min_eq_right (le_of_lt hgt), max_eq_left (le_of_lt hgt)]
      constructor
      · nlinarith [mul_pos (sub_pos.mpr ht1) (sub_pos.mpr hgt)]
      · nlinarith [mul_pos ht0 (sub_pos.mpr hgt)]

/-- Witness for C4: throughput `[100,200,300,400]`, latency `[1,2,6,10]`,
threshold `5`: the knee is interpolated as `275`, strictly between `200`
and `300`. -/
theorem knee_interpolation_formula_witness :
    interpolate_knee [100, 200, 300, 400] [1, 2, 6, 10] 5
      = some (275, 5, some 1, some 2) ∧
    (200:ℚ) < 275 ∧ (275:ℚ) < 300 := by
  have h := knee_interpolation_formula [100, 200, 300, 400] [1, 2, 6, 10]
    5 (by decide) (by decide) (by decide) (by decide) (by decide)
  have h1 : interpolate_knee [100, 200, 300, 400] [1, 2, 6, 10] 5
      = some (200 + (5 - 2) / (6 - 2) * (300 - 200), 5, some 1, some 2) := h.1
  refine ⟨?_, by norm_num, by norm_num⟩
  rw [h1]
  norm_num

/-- Claim C5: when the threshold strictly exceeds every latency value on a
valid (length ≥ 2) input, the knee locator does not fail and returns the
last sample's throughput and latency with indices `(size-2, size-1)`. -/
theorem knee_no_crossing_last_point (x y : List ℚ) (L : ℚ)
    (hlen : x.length = y.length) (h2 : 2 ≤ x.length)
    (hall : ∀ v ∈ y, v < L) :
    interpolate_knee x y L
      = some (x.getLastD 0, y.getLastD 0,
          some (x.length - 2), some (x.length - 1)) :=
  interpolate_knee_no_cross x y L h2
    (by
      intro h
      rw [h, List.length_nil] at hlen
      omega)
    hall

/-- Witness for C5 at the repository's no-crossing test: throughput
`[100,200,300]`, latency `[1, 1.2, 1.3]`, threshold `2` (double the
minimum): the last pair `(300, 1.3)` is reported with indices `(1, 2)`. -/
theorem knee_no_crossing_last_point_witness :
    interpolate_knee [100, 200, 300] [1, 6/5, 13/10] 2
      = some (300, 13/10, some 1, some 2) := by
  have h := knee_no_crossing_last_point [100, 200, 300] [1, 6/5, 13/10] 2
    (by decide) (by decide) (by norm_num)
  simpa using h

/-! ### Lemmas about the threshold calculator -/

lemma nanmin_eq_some {l : List (Option ℚ)} {m : ℚ}
    (hmem : m ∈ l.filterMap id) (hmin : ∀ v ∈ l.filterMap id, m ≤ v) :
    nanmin l = some m := by
  unfold nanmin
  exact (List.min?_eq_some_iff le_refl min_choice
    (fun _ _ _ => le_min_iff)).mpr ⟨hmem, hmin⟩

lemma nanmax_eq_some {l : List (Option ℚ)} {M : ℚ}
    (hmem : M ∈ l.filterMap id) (hmax : ∀ v ∈ l.filterMap id, v ≤ M) :
    nanmax l = some M := by
  unfold nanmax
  exact (List.max?_eq_some_iff le_refl max_choice
    (fun _ _ _ => max_le_iff)).mpr ⟨hmem, hmax⟩

lemma length_ne_zero_of_valid {l : List (Option ℚ)} {m : ℚ}
    (hmem : m ∈ l.filterMap id) : ¬ l.length = 0 := by
  intro h
  rw [List.length_eq_zero] at h
  rw [h] at hmem
  simp at hmem

/-- Claim C6: on a latency sequence with at least one non-NaN entry, the
threshold calculator returns `(min + max) / 2` for `midrange` and
`2 * min` for `double_min`, where min and max range over the non-NaN
entries only. -/
theorem half_latency_rules (l : List (Option ℚ)) (m M : ℚ)
    (hmem : m ∈ l.filterMap id) (hmin : ∀ v ∈ l.filterMap id, m ≤ v)
    (hMem : M ∈ l.filterMap id) (hmax : ∀ v ∈ l.filterMap id, v ≤ M) :
    compute_half_latency l "midrange" = .ok (some ((m + M) / 2)) ∧
    compute_half_latency l "double_min" = .ok (some (2 * m)) := by
  have hmn : nanmin l = some m := nanmin_eq_some hmem hmin
  have hmx : nanmax l = some M := nanmax_eq_some hMem hmax
  have hlen : ¬ l.length = 0 := length_ne_zero_of_valid hmem
  constructor
  · unfold compute_half_latency
    rw [if_neg hlen, if_pos rfl, hmn, hmx]
  · unfold compute_half_latency
    rw [if_neg hlen, if_neg (by decide), if_pos rfl, hmn]
    rfl

/-- Witness for C6 at the repository's threshold tests: latencies
`[1, 2, 5, 9]` give midrange `(1+9)/2 = 5` and double-min `2`. -/
theorem half_latency_rules_witness :
    compute_half_latency [some 1, some 2, some 5, some 9] "midrange"
      = .ok (some 5) ∧
    compute_half_latency [some 1, some 2, some 5, some 9] "double_min"
      = .ok (some 2) := by
  have h := half_latency_rules [some 1, some 2, some 5, some 9] 1 9
    (by decide) (by decide) (by decide) (by decide)
  refine ⟨?_, ?_⟩
  · rw [h.1]
    norm_num
  · rw [h.2]
    norm_num

/-- Totality of the knee locator on equal-length inputs with at least two
points. -/
lemma interpolate_knee_isSome (x y : List ℚ) (L : ℚ)
    (hlen : x.length = y.length) (h2 : 2 ≤ x.length) :
    ∃ r, interpolate_knee x y L = some r := by
  by_cases hany : y.any (fun v => decide (L ≤ v)) = true
  · have hidx : firstCrossIdx y L < y.length :=
      List.findIdx_lt_length.mpr (List.any_eq_true.mp hany)
    by_cases hex : y.get ⟨firstCrossIdx y L, hidx⟩ = L ∨ firstCrossIdx y L = 0
    · exact ⟨_, interpolate_knee_exact_eq x y L hlen hidx hex⟩
    · push_neg at hex
      have hpos : 0 < firstCrossIdx y L := Nat.pos_of_ne_zero hex.2
      have hstrict : L < y.get ⟨firstCrossIdx y L, hidx⟩ :=
        lt_of_le_of_ne (cross_at_firstCrossIdx hidx) (Ne.symm hex.1)
      exact ⟨_, interpolate_knee_interp_eq x y L hlen hidx hpos hstrict⟩
  · have hall : ∀ v ∈ y, v < L := by
      rw [Bool.not_eq_true, List.any_eq_false] at hany
      intro v hv
      have := hany v hv
      simpa using this
    have hy : y ≠ [] := by
      intro h
      rw [h, List.length_nil] at hlen
      omega
    exact ⟨_, interpolate_knee_no_cross x y L h2 hy hall⟩

/-- Claim C7: for every valid (equal-length, length ≥ 2) input and any
threshold, the knee locator never fails (out-of-range indexing is
impossible and the interpolation division's denominator
`latency[idx] - latency[idx-1]` is nonzero whenever the interpolation
branch can run, because `latency[idx-1] < threshold ≤ latency[idx]`). -/
theorem knee_locator_never_raises (x y : List ℚ) (L : ℚ)
    (hlen : x.length = y.length) (h2 : 2 ≤ x.length) :
    (∃ r, interpolate_knee x y L = some r) ∧
    (∀ hidx : firstCrossIdx y L < y.length, 0 < firstCrossIdx y L →
      y.get ⟨firstCrossIdx y L, hidx⟩ - y.get ⟨firstCrossIdx y L - 1, by omega⟩ ≠ 0) := by
  refine ⟨interpolate_knee_isSome x y L hlen h2, ?_⟩
  intro hidx hpos
  have h0 : y.get ⟨firstCrossIdx y L - 1, by omega⟩ < L :=
    no_cross_before_firstCrossIdx (by omega)
  have h1 : L ≤ y.get ⟨firstCrossIdx y L, hidx⟩ := cross_at_firstCrossIdx hidx
  exact sub_ne_zero.mpr (ne_of_gt (lt_of_lt_of_le h0 h1))

/-- Witness for C7 at `[10,20]` / `[1,3]`, threshold `2`: the locator
returns a result. -/
theorem knee_locator_never_raises_witness :
    ∃ r, interpolate_knee [10, 20] [1, 3] 2 = some r :=
  (knee_locator_never_raises [10, 20] [1, 3] 2 (by decide) (by decide)).1

/-! ### Lemmas about the smoother -/

lemma padEdge_length (y : List ℚ) (p : ℕ) :
    (padEdge y p).length = y.length + 2 * p := by
  simp [padEdge]
  omega

lemma convValid_length (a k : List ℚ) :
    (convValid a k).length = a.length + 1 - k.length := by
  simp [convValid]

lemma moving_average_length (y : List ℚ) (w : Option ℤ) (hy : y ≠ []) :
    (moving_average y w).length = y.length := by
  cases w with
  | none => rfl
  | some k =>
    simp only [moving_average]
    by_cases hk : k ≤ 1
    · rw [if_pos hk]
    · rw [if_neg hk]
      have hn : 1 ≤ y.length := List.length_pos.mpr hy
      have hk2 : 2 ≤ k.toNat := by omega
      set wn := if y.length < k.toNat then y.length else k.toNat with hwn
      have hwn1 : 1 ≤ wn := by
        rw [hwn]
        split <;> omega
      have hwnle : wn ≤ y.length := by
        rw [hwn]
        split <;> omega
      have hm : (convValid (padEdge y (wn / 2))
          (List.replicate wn ((wn : ℚ))⁻¹)).length
          = y.length + 2 * (wn / 2) + 1 - wn := by
        rw [convValid_length, padEdge_length, List.length_replicate]
      rw [hm]
      by_cases hbig : y.length < y.length + 2 * (wn / 2) + 1 - wn
      · rw [if_pos hbig]
        simp only [List.length_take, List.length_drop, hm]
        omega
      · rw [if_neg hbig]
        omega

lemma moving_average_le_one (y : List ℚ) (k : ℤ) (hk : k ≤ 1) :
    moving_average y (some k) = y := by
  simp only [moving_average]
  rw [if_pos hk]

/-- A window-1 pass is also the identity when the list is a singleton after
clamping: the padded list is the list itself and the kernel is `[1]`. -/
lemma moving_average_singleton (a : ℚ) (k : ℤ) :
    moving_average [a] (some k) = [a] := by
  simp only [moving_average]
  by_cases hk : k ≤ 1
  · rw [if_pos hk]
  · rw [if_neg hk]
    have hk2 : 2 ≤ k.toNat := by omega
    have hwn : (if [a].length < k.toNat then [a].length else k.toNat) = 1 := by
      simp only [List.length_singleton]
      rw [if_pos (by omega)]
    simp only [hwn]
    norm_num [padEdge, convValid, List.range_succ]

lemma moving_average_clamp (y : List ℚ) (k : ℤ) (hy : y ≠ [])
    (hk : (y.length : ℤ) < k) :
    moving_average y (some k) = moving_average y (some (y.length : ℤ)) := by
  have hn : 1 ≤ y.length := List.length_pos.mpr hy
  by_cases h1 : y.length = 1
  · obtain ⟨a, ha⟩ : ∃ a, y = [a] := by
      cases y with
      | nil => simp at hn
      | cons a t =>
        cases t with
        | nil => exact ⟨a, rfl⟩
        | cons b t' => simp at h1
    subst ha
    rw [moving_average_singleton, moving_average_singleton]
  · have hn2 : 2 ≤ y.length := by omega
    have hk1 : ¬ k ≤ 1 := by omega
    have hl1 : ¬ (y.length : ℤ) ≤ 1 := by omega
    simp only [moving_average]
    rw [if_neg hk1, if_neg hl1]
    have hwl : (if y.length < k.toNat then y.length else k.toNat)
        = y.length := by
      rw [if_pos (by omega)]
    have hwr : (if y.length < (y.length : ℤ).toNat then y.length
        else (y.length : ℤ).toNat) = y.length := by
      rw [Int.toNat_natCast]
      rw [if_neg (by omega)]
    rw [hwl, hwr]

/-- Claim C9: for every non-empty sequence and every window argument, the
smoother returns a sequence of exactly the input's length; a null or `≤ 1`
window is an identity passthrough, and a window exceeding the sequence
length behaves as if clamped to the sequence length. -/
theorem smoother_preserves_length (y : List ℚ) (w : Option ℤ) (hy : y ≠ []) :
    (moving_average y w).length = y.length ∧
    moving_average y none = y ∧
    (∀ k : ℤ, k ≤ 1 → moving_average y (some k) = y) ∧
    (∀ k : ℤ, (y.length : ℤ) < k →
      moving_average y (some k) = moving_average y (some (y.length : ℤ))) :=
  ⟨moving_average_length y w hy, rfl,
    fun k hk => moving_average_le_one y k hk,
    fun k hk => moving_average_clamp y k hy hk⟩

/-- Witness for C9: an even window (2) on a 3-element list still returns 3
elements. -/
theorem smoother_preserves_length_witness :
    (moving_average [1, 2, 3] (some 2)).length = 3 :=
  (smoother_preserves_length [1, 2, 3] (some 2) (by simp)).1

/-! ### Lemmas about the full pipeline and its error taxonomy -/

lemma filterMap_id_map_some (l : List ℚ) : (l.map some).filterMap id = l := by
  induction l with
  | nil => rfl
  | cons a t ih => simp [ih]

lemma smoothed_length (y : List ℚ) (w : Option ℤ) (hy : y ≠ []) :
    (smoothed y w).length = y.length := by
  cases w with
  | none => rfl
  | some k =>
    simp only [smoothed]
    by_cases hk : 1 < k
    · rw [if_pos hk]
      exact moving_average_length y (some k) hy
    · rw [if_neg hk]

lemma validate_xy_shape (i l : List (Option ℚ)) (h : i.length ≠ l.length) :
    validate_xy i l = .error .shape := by
  unfold validate_xy
  rw [if_pos h]

lemma validate_xy_insufficient (i l : List (Option ℚ))
    (hlen : i.length = l.length) (h : (validPairs i l).length < 2) :
    validate_xy i l = .error .insufficientData := by
  unfold validate_xy
  rw [if_neg (by omega)]
  by_cases hraw : i.length < 2
  · rw [if_pos hraw]
  · rw [if_neg hraw]
    simp only [applyMask_fst, applyMask_snd]
    rw [if_pos (by simpa using h)]

/-- Inversion for a successful validation. -/
lemma validate_xy_ok_inv {i l : List (Option ℚ)} {xs ys : List ℚ}
    (hv : validate_xy i l = .ok (xs, ys)) :
    i.length = l.length ∧ 2 ≤ (validPairs i l).length ∧
    xs = (validPairs i l).map Prod.fst ∧ ys = (validPairs i l).map Prod.snd := by
  by_cases hlen : i.length = l.length
  · by_cases h2 : 2 ≤ (validPairs i l).length
    · rw [validate_xy_ok i l hlen h2] at hv
      simp only [Except.ok.injEq, Prod.mk.injEq] at hv
      exact ⟨hlen, h2, hv.1.symm, hv.2.symm⟩
    · rw [validate_xy_insufficient i l hlen (by omega)] at hv
      simp at hv
  · rw [validate_xy_shape i l hlen] at hv
    simp at hv

/-- Unfolding of the pipeline once validation has succeeded. -/
lemma find_knee_unfold_ok (i l : List (Option ℚ)) (r : String) (w : Option ℤ)
    {xs ys : List ℚ} (hv : validate_xy i l = .ok (xs, ys)) :
    find_knee_half_latency i l r w =
      match compute_half_latency ((smoothed ys w).map some) r with
      | .error e => .error e
      | .ok none => .error .internal
      | .ok (some L_half) =>
        match interpolate_knee xs (smoothed ys w) L_half with
        | some (atp, kl, il, ir) => .ok ⟨atp, kl, L_half, il, ir⟩
        | none => .error .internal := by
  unfold find_knee_half_latency
  rw [hv]

/-- With a nonempty smoothed latency and a recognized rule, the threshold
calculator on the pipeline's NaN-free input returns a threshold. -/
lemma compute_half_latency_ok (yu : List ℚ) (r : String) (hyu : yu ≠ [])
    (hr : r = "midrange" ∨ r = "double_min") :
    ∃ L, compute_half_latency (yu.map some) r = .ok (some L) := by
  obtain ⟨m, hm⟩ : ∃ m, yu.min? = some m := by
    cases h : yu.min? with
    | none => rw [List.min?_eq_none_iff] at h; exact absurd h hyu
    | some m => exact ⟨m, rfl⟩
  obtain ⟨M, hM⟩ : ∃ M, yu.max? = some M := by
    cases h : yu.max? with
    | none => rw [List.max?_eq_none_iff] at h; exact absurd h hyu
    | some M => exact ⟨M, rfl⟩
  have hmn : nanmin (yu.map some) = some m := by
    rw [nanmin, filterMap_id_map_some, hm]
  have hmx : nanmax (yu.map some) = some M := by
    rw [nanmax, filterMap_id_map_some, hM]
  have hne : ¬ (yu.map some).length = 0 := by simp [hyu]
  rcases hr with hr | hr <;> subst hr
  · refine ⟨(m + M) / 2, ?_⟩
    unfold compute_half_latency
    rw [if_neg hne, if_pos rfl, hmn, hmx]
  · refine ⟨2 * m, ?_⟩
    unfold compute_half_latency
    rw [if_neg hne, if_neg (by decide), if_pos rfl, hmn]
    rfl

lemma compute_half_latency_unknown (yu : List (Option ℚ)) (r : String)
    (hyu : yu ≠ []) (h1 : r ≠ "midrange") (h2 : r ≠ "double_min") :
    compute_half_latency yu r = .error .unknownRule := by
  unfold compute_half_latency
  rw [if_neg (by simp [hyu]), if_neg h1, if_neg h2]

/-- Complete classification of the pipeline's outcome, mirroring the error
taxonomy of spec §7. -/
lemma find_knee_classify (i l : List (Option ℚ)) (r : String) (w : Option ℤ) :
    (i.length ≠ l.length ∧ find_knee_half_latency i l r w = .error .shape) ∨
    (i.length = l.length ∧ (validPairs i l).length < 2 ∧
      find_knee_half_latency i l r w = .error .insufficientData) ∨
    (i.length = l.length ∧ 2 ≤ (validPairs i l).length ∧
      r ≠ "midrange" ∧ r ≠ "double_min" ∧
      find_knee_half_latency i l r w = .error .unknownRule) ∨
    (i.length = l.length ∧ 2 ≤ (validPairs i l).length ∧
      (r = "midrange" ∨ r = "double_min") ∧
      ∃ res, find_knee_half_latency i l r w = .ok res) := by
  by_cases hlen : i.length = l.length
  · by_cases hv2 : (validPairs i l).length < 2
    · refine Or.inr (Or.inl ⟨hlen, hv2, ?_⟩)
      unfold find_knee_half_latency
      rw [validate_xy_insufficient i l hlen hv2]
    · push_neg at hv2
      have hv := validate_xy_ok i l hlen hv2
      have hys : ((validPairs i l).map Prod.snd) ≠ [] := by
        intro h
        have := congrArg List.length h
        simp only [List.length_map, List.length_nil] at this
        omega
      have hyu : smoothed ((validPairs i l).map Prod.snd) w ≠ [] := by
        intro h
        have := congrArg List.length h
        rw [smoothed_length _ _ hys] at this
        simp only [List.length_map, List.length_nil] at this
        omega
      by_cases hr : r = "midrange" ∨ r = "double_min"
      · refine Or.inr (Or.inr (Or.inr ⟨hlen, hv2, hr, ?_⟩))
        rw [find_knee_unfold_ok i l r w hv]
        obtain ⟨L, hL⟩ := compute_half_latency_ok _ r hyu hr
        rw [hL]
        have hxslen : ((validPairs i l).map Prod.fst).length
            = (smoothed ((validPairs i l).map Prod.snd) w).length := by
          rw [smoothed_length _ _ hys]
          simp
        obtain ⟨⟨atp, kl, il, ir⟩, hik⟩ :=
          interpolate_knee_isSome ((validPairs i l).map Prod.fst)
            (smoothed ((validPairs i l).map Prod.snd) w) L hxslen (by simpa using hv2)
        simp only [hik]
        exact ⟨_, rfl⟩
      · push_neg at hr
        refine Or.inr (Or.inr (Or.inl ⟨hlen, hv2, hr.1, hr.2, ?_⟩))
        rw [find_knee_unfold_ok i l r w hv]
        rw [compute_half_latency_unknown _ r (by simp [hyu]) hr.1 hr.2]
  · refine Or.inl ⟨hlen, ?_⟩
    unfold find_knee_half_latency
    rw [validate_xy_shape i l hlen]

/-- Claim C8: the pipeline fails with `ShapeError` exactly on a length
mismatch (dimensionality being fixed by the list embedding), with
`InsufficientDataError` exactly when fewer than two valid pairs remain,
the threshold calculator fails with `UnknownRuleError` exactly for an
unrecognized rule, and in all remaining cases no error is raised. -/
theorem error_taxonomy_exact :
    (∀ (i l : List (Option ℚ)) (r : String) (w : Option ℤ),
      (find_knee_half_latency i l r w = .error .shape ↔
        i.length ≠ l.length)) ∧
    (∀ (i l : List (Option ℚ)) (r : String) (w : Option ℤ),
      (find_knee_half_latency i l r w = .error .insufficientData ↔
        i.length = l.length ∧ (validPairs i l).length < 2)) ∧
    (∀ (lat : List (Option ℚ)) (r : String), lat ≠ [] →
      (compute_half_latency lat r = .error .unknownRule ↔
        r ≠ "midrange" ∧ r ≠ "double_min")) ∧
    (∀ (i l : List (Option ℚ)) (r : String) (w : Option ℤ),
      i.length = l.length → 2 ≤ (validPairs i l).length →
      (r = "midrange" ∨ r = "double_min") →
      ∃ res, find_knee_half_latency i l r w = .ok res) := by
  refine ⟨?_, ?_, ?_, ?_⟩
  · intro i l r w
    rcases find_knee_classify i l r w with ⟨h1, h2⟩ | ⟨h1, h2, h3⟩ |
      ⟨h1, h2, h3, h4, h5⟩ | ⟨h1, h2, h3, h4, h5⟩
    · simp [h2, h1]
    · rw [h3]; simp [h1]
    · rw [h5]; simp [h1]
    · rw [h5]; simp [h1]
  · intro i l r w
    rcases find_knee_classify i l r w with ⟨h1, h2⟩ | ⟨h1, h2, h3⟩ |
      ⟨h1, h2, h3, h4, h5⟩ | ⟨h1, h2, h3, h4, h5⟩
    · rw [h2]; simp [h1]
    · rw [h3]; simp [h1, h2]
    · rw [h5]; simp [h1]; omega
    · rw [h5]; simp [h1]; omega
  · intro lat r hne
    constructor
    · intro h
      by_cases h1 : r = "midrange"
      · unfold compute_half_latency at h
        rw [if_neg (by simp [hne]), if_pos h1] at h
        simp at h
      · by_cases h2 : r = "double_min"
        · unfold compute_half_latency at h
          rw [if_neg (by simp [hne]), if_neg h1, if_pos h2] at h
          simp at h
        · exact ⟨h1, h2⟩
    · intro ⟨h1, h2⟩
      exact compute_half_latency_unknown lat r hne h1 h2
  · intro i l r w hlen h2 hr
    rcases find_knee_classify i l r w with ⟨g1, g2⟩ | ⟨g1, g2, g3⟩ |
      ⟨g1, g2, g3, g4, g5⟩ | ⟨g1, g2, g3, g4, g5⟩
    · exact absurd hlen g1
    · omega
    · rcases hr with hr | hr
      · exact absurd hr g3
      · exact absurd hr g4
    · exact ⟨g4, g5⟩

/-- Witness for C8: a well-formed two-point input with the `midrange` rule
succeeds. -/
theorem error_taxonomy_exact_witness :
    ∃ res, find_knee_half_latency [some 1, some 2] [some 1, some 2]
      "midrange" none = .ok res :=
  error_taxonomy_exact.2.2.2 [some 1, some 2] [some 1, some 2] "midrange"
    none rfl (by decide) (Or.inl rfl)

/-! ### Index invariants of the knee result -/

lemma interpolate_knee_indices {x y : List ℚ} {L : ℚ}
    (hlen : x.length = y.length) (h2 : 2 ≤ x.length)
    {atp kl : ℚ} {il ir : Option ℕ}
    (h : interpolate_knee x y L = some (atp, kl, il, ir)) :
    ∃ ri, ir = some ri ∧ ri < x.length ∧
      (∀ li, il = some li → ri = li + 1) ∧ (il = none → ri = 0) := by
  by_cases hany : y.any (fun v => decide (L ≤ v)) = true
  · have hidx : firstCrossIdx y L < y.length :=
      List.findIdx_lt_length.mpr (List.any_eq_true.mp hany)
    by_cases hex : y.get ⟨firstCrossIdx y L, hidx⟩ = L ∨ firstCrossIdx y L = 0
    · rw [interpolate_knee_exact_eq x y L hlen hidx hex] at h
      simp only [Option.some.injEq, Prod.mk.injEq] at h
      obtain ⟨-, -, hil, hir⟩ := h
      refine ⟨firstCrossIdx y L, hir.symm, by omega, ?_, ?_⟩
      · intro li hli
        rw [← hil] at hli
        by_cases h0 : firstCrossIdx y L = 0
        · rw [if_pos h0] at hli
          cases hli
        · rw [if_neg h0] at hli
          injection hli with h'
          omega
      · intro hnone
        rw [← hil] at hnone
        by_cases h0 : firstCrossIdx y L = 0
        · exact h0
        · rw [if_neg h0] at hnone
          cases hnone
    · push_neg at hex
      have hpos : 0 < firstCrossIdx y L := Nat.pos_of_ne_zero hex.2
      have hstrict : L < y.get ⟨firstCrossIdx y L, hidx⟩ :=
        lt_of_le_of_ne (cross_at_firstCrossIdx hidx) (Ne.symm hex.1)
      rw [interpolate_knee_interp_eq x y L hlen hidx hpos hstrict] at h
      simp only [Option.some.injEq, Prod.mk.injEq] at h
      obtain ⟨-, -, hil, hir⟩ := h
      refine ⟨firstCrossIdx y L, hir.symm, by omega, ?_, ?_⟩
      · intro li hli
        rw [← hil] at hli
        injection hli with h'
        omega
      · intro hnone
        rw [← hil] at hnone
        cases hnone
  · have hall : ∀ v ∈ y, v < L := by
      rw [Bool.not_eq_true, List.any_eq_false] at hany
      intro v hv
      simpa using hany v hv
    have hy : y ≠ [] := by
      intro hnil
      rw [hnil, List.length_nil] at hlen
      omega
    rw [interpolate_knee_no_cross x y L h2 hy hall] at h
    simp only [Option.some.injEq, Prod.mk.injEq] at h
    obtain ⟨-, -, hil, hir⟩ := h
    refine ⟨x.length - 1, hir.symm, by omega, ?_, ?_⟩
    · intro li hli
      rw [← hil] at hli
      injection hli with h'
      omega
    · intro hnone
      rw [← hil] at hnone
      cases hnone

/-- Claim C10: every `KneeResult` produced by a successful run of the
pipeline has a non-null right index within the validated series; the left
index, when present, satisfies `right = left + 1`, and it is absent only
when `right = 0`. -/
theorem knee_result_index_invariants (i l : List (Option ℚ)) (r : String)
    (w : Option ℤ) (xs ys : List ℚ) (res : KneeResult)
    (hv : validate_xy i l = .ok (xs, ys))
    (hres : find_knee_half_latency i l r w = .ok res) :
    ∃ ri, res.knee_index_right = some ri ∧ ri < xs.length ∧
      (∀ li, res.knee_index_left = some li → ri = li + 1) ∧
      (res.knee_index_left = none → ri = 0) := by
  obtain ⟨hlen, h2, hxs, hys⟩ := validate_xy_ok_inv hv
  have hxsys : xs.length = ys.length := by
    rw [hxs, hys]
    simp
  have h2' : 2 ≤ xs.length := by
    rw [hxs]
    simpa using h2
  have hysne : ys ≠ [] := by
    intro hnil
    rw [hnil, List.length_nil] at hxsys
    omega
  rw [find_knee_unfold_ok i l r w hv] at hres
  rcases hch : compute_half_latency ((smoothed ys w).map some) r with e | o
  · rw [hch] at hres
    simp at hres
  · cases o with
    | none =>
      rw [hch] at hres
      simp at hres
    | some L =>
      rw [hch] at hres
      obtain ⟨⟨atp, kl, il, ir⟩, hik⟩ := interpolate_knee_isSome xs
        (smoothed ys w) L (by rw [smoothed_length ys w hysne]; exact hxsys) h2'
      simp only [hik, Except.ok.injEq] at hres
      have hlen2 : xs.length = (smoothed ys w).length := by
        rw [smoothed_length ys w hysne]
        exact hxsys
      have hinv := interpolate_knee_indices hlen2 h2' hik
      rw [← hres]
      simpa using hinv

/-- Witness for C10 at the repository's exact-match test. -/
theorem knee_result_index_invariants_witness :
    ∃ ri, (⟨20, 10, 10, some 0, some 1⟩ : KneeResult).knee_index_right
        = some ri ∧
      ri < ([10, 20, 30] : List ℚ).length ∧
      (∀ li, (⟨20, 10, 10, some 0, some 1⟩ : KneeResult).knee_index_left
          = some li → ri = li + 1) ∧
      ((⟨20, 10, 10, some 0, some 1⟩ : KneeResult).knee_index_left
          = none → ri = 0) :=
  knee_result_index_invariants [some 10, some 20, some 30]
    [some 5, some 10, some 15] "double_min" none [10, 20, 30] [5, 10, 15]
    ⟨20, 10, 10, some 0, some 1⟩ (by decide)
    (by
      simp [find_knee_half_latency, smoothed, validate_xy, applyMask,
        compute_half_latency, nanmin, nanmax, interpolate_knee, firstCrossIdx,
        List.findIdx_cons, List.filterMap_cons]
      norm_num)

/-- Claim C1 (status: the code contradicts its own reference test).
On throughput `[300, NaN, 100, 200]` and latency `[6.0, 7.0, 1.0, 3.0]`
with the `midrange` rule and no smoothing, the code computes threshold
`3.5` but — because the sort-by-throughput in `_validate_xy` is commented
out — the first crossing is at position 0 of the unsorted data, so it
returns atp `300`, knee latency `6.0`, left index `None`, right index `0`,
not the test-suite expectation `atp ≈ 216.667`, knee latency `3.5`,
left `1`, right `2`. -/
theorem find_knee_nan_unsorted_eval :
    find_knee_half_latency [some 300, none, some 100, some 200]
      [some 6, some 7, some 1, some 3] "midrange" none
      = .ok ⟨300, 6, 7/2, none, some 0⟩ := by
  simp [find_knee_half_latency, smoothed, validate_xy, applyMask,
    compute_half_latency, nanmin, nanmax, interpolate_knee, firstCrossIdx,
    List.findIdx_cons, List.filterMap_cons]
  norm_num

end ATP

/-!
### Validation of the embedding against the repository's test suite

The following examples replay `src/tests/test_computation.py` against the
embedding: the threshold rules, the interpolation, exact-match and
no-crossing tests pass, and the moving-average example agrees with numpy's
edge-padded valid-mode convolution for an odd window.
-/

section TestSuite
open ATP

example : validate_xy [some 300, none, some 100, some 200]
    [some 6, some 7, some 1, some 3] = .ok ([300, 100, 200], [6, 1, 3]) := by
  decide

example : find_knee_half_latency [some 300, none, some 100, some 200]
    [some 6, some 7, some 1, some 3] "midrange" none
    = .ok ⟨300, 6, 7/2, none, some 0⟩ := by
  simp [find_knee_half_latency, smoothed, validate_xy, applyMask,
    compute_half_latency, nanmin, nanmax, interpolate_knee, firstCrossIdx,
    List.findIdx_cons, List.filterMap_cons]
  norm_num

example : find_knee_half_latency
    [some 100, some 200, some 300, some 400]
    [some 1, some 2, some 6, some 10] "midrange" none
    = .ok ⟨575/2, 11/2, 11/2, some 1, some 2⟩ := by
  simp [find_knee_half_latency, smoothed, validate_xy, applyMask,
    compute_half_latency, nanmin, nanmax, interpolate_knee, firstCrossIdx,
    List.findIdx_cons, List.filterMap_cons]
  norm_num

example : find_knee_half_latency [some 10, some 20, some 30]
    [some 5, some 10, some 15] "double_min" none
    = .ok ⟨20, 10, 10, some 0, some 1⟩ := by
  simp [find_knee_half_latency, smoothed, validate_xy, applyMask,
    compute_half_latency, nanmin, nanmax, interpolate_knee, firstCrossIdx,
    List.findIdx_cons, List.filterMap_cons]
  norm_num

example : find_knee_half_latency [some 100, some 200, some 300]
    [some 1, some (6/5), some (13/10)] "double_min" none
    = .ok ⟨300, 13/10, 2, some 1, some 2⟩ := by
  simp [find_knee_half_latency, smoothed, validate_xy, applyMask,
    compute_half_latency, nanmin, nanmax, interpolate_knee, firstCrossIdx,
    List.findIdx_cons, List.filterMap_cons]
  norm_num

example : moving_average [1, 2, 3, 4, 5] (some 3) = [4/3, 2, 3, 4, 14/3] := by
  simp [moving_average, padEdge, convValid, List.range_succ]
  norm_num

end TestSuite
